import Mathlib

/-!
Verification of the batch image-to-LaTeX converter (`toAlgo.py`).

The source is a single Python file with one class `AlgorithmImageConverter`
and a `main` function.  We shallowly embed each method:

* `clean_latex_output` is the response sanitizer.  Its two `re.sub` calls on
  the literal patterns "```latex\n?" and "```\n?" are embedded as the
  left-to-right scanners `sub1` and `sub2` (Python's `re.sub` scans left to
  right, removes each non-overlapping match, and continues after the match
  without rescanning the output).  `str.strip` is embedded as `stripL`,
  over the ASCII whitespace characters.
* discovery (`images_dir.glob` over each supported suffix) is `discovered`;
  a glob pattern `*<suffix>` matches exactly the names that end with the
  suffix (case-sensitively, as `pathlib` matches on POSIX), and `pathlib`
  glob does not exclude dot-files, hence the explicit hidden-file skip in
  the processing loop.
* Python's `sorted` over paths of one directory is the stable sort `pySort`
  by code-point-lexicographic filename order `lexLe`.
* the effectful pipeline (`analyze_algorithm_image`, `process_single_image`,
  `process_all_images`, `main`) is embedded in the `Except String` monad:
  `.error e` is an uncaught Python exception carrying its message.  The
  external world (file reads, the OpenAI call, write success) is an
  explicit oracle record `Env`; output files are an association list.
-/

namespace ToAlgo

/-- The backtick character, written via its code point. -/
def btick : Char := Char.ofNat 96

/-- Newline. -/
def nl : Char := '\n'

/-- ASCII whitespace, as stripped by Python's `str.strip`
(space, tab, newline, carriage return, vertical tab, form feed). -/
def wsChar (c : Char) : Bool :=
  c == ' ' || c == '\t' || c == nl || c == '\r' || c == Char.ofNat 11 || c == Char.ofNat 12

/-- Scanner for `re.sub(r'```latex\n?', '', s)`: at each position, if the
pattern (three backticks, then "latex", then an optional newline, greedily)
matches, remove it and continue after it; otherwise keep the character. -/
def sub1 : List Char → List Char
  | a :: b :: c :: d :: e :: f :: g :: h :: rest =>
    if a == btick && b == btick && c == btick &&
        d == 'l' && e == 'a' && f == 't' && g == 'e' && h == 'x' then
      match rest with
      | [] => []
      | i :: rest2 => if i == nl then sub1 rest2 else sub1 (i :: rest2)
    else a :: sub1 (b :: c :: d :: e :: f :: g :: h :: rest)
  | l => l

/-- Scanner for `re.sub(r'```\n?', '', s)`. -/
def sub2 : List Char → List Char
  | a :: b :: c :: d :: rest =>
    if a == btick && b == btick && c == btick then
      if d == nl then sub2 rest else sub2 (d :: rest)
    else a :: sub2 (b :: c :: d :: rest)
  | [a, b, c] =>
    if a == btick && b == btick && c == btick then [] else [a, b, c]
  | l => l

/-- Whether a character list contains three consecutive backticks. -/
def hasT3 : List Char → Bool
  | a :: b :: c :: rest => (a == btick && b == btick && c == btick) || hasT3 (b :: c :: rest)
  | _ => false

/-- Right strip: drop trailing whitespace (via reversal). -/
def stripR (l : List Char) : List Char := (l.reverse.dropWhile wsChar).reverse

/-- Python `str.strip()` on the character list: drop leading then trailing
whitespace. -/
def stripL (l : List Char) : List Char := stripR (l.dropWhile wsChar)

/-- Python truthiness of an `Optional[str]`: `None` and `""` are falsy. -/
def pyFalsy : Option String → Bool
  | none => true
  | some s => s == ""

/-- `AlgorithmImageConverter.clean_latex_output`.  The argument is an
`Optional[str]` exactly as in the source (`None` when analysis failed). -/
def clean_latex_output (latex_code : Option String) : Option String :=
  match latex_code with
  | none => none
  | some s =>
    if s == "" then none
    else some (String.mk (stripL (sub2 (sub1 s.data))))

/-- `self.supported_formats` (a Python set; we fix a list enumeration —
every property proved about it is invariant under permutation because the
discovered list is subsequently sorted). -/
def supported_formats : List String := [".png", ".jpg", ".jpeg", ".gif", ".webp"]

/-- Whether glob pattern `*<suffix>` matches `name`: the name ends with the
suffix.  `pathlib` matching is case-sensitive and does not special-case
leading dots. -/
def globMatches (suffix name : String) : Bool := decide (suffix.data <:+ name.data)

/-- The file list built by the glob loop in `process_all_images`:
`image_files.extend(images_dir.glob(f"*{suffix}"))` for each suffix. -/
def discovered (dir : List String) : List String :=
  supported_formats.foldl (fun acc suffix => acc ++ dir.filter (globMatches suffix)) []

/-- Code-point-lexicographic `le` on character lists: Python's string
comparison, which is what `sorted` uses on same-directory paths. -/
def lexLe : List Char → List Char → Bool
  | [], _ => true
  | _ :: _, [] => false
  | a :: as, b :: bs =>
    if a.toNat < b.toNat then true
    else if b.toNat < a.toNat then false
    else lexLe as bs

/-- String comparison used by `sorted(image_files)`. -/
def strLe (a b : String) : Bool := lexLe a.data b.data

/-- The `Prop` form of `strLe`, for sortedness statements. -/
def SLe (a b : String) : Prop := strLe a b = true

/-- Insert into a sorted list (insertion sort models Python's stable
`sorted`; a stable sort's output is unique, so any stable sort is a
faithful model). -/
def pyInsert (a : String) : List String → List String
  | [] => [a]
  | b :: l => if strLe a b then a :: b :: l else b :: pyInsert a l

/-- `sorted(image_files)`. -/
def pySort : List String → List String
  | [] => []
  | b :: l => pyInsert b (pySort l)

/-- `name.startswith('.')`. -/
def hiddenName (s : String) : Bool :=
  match s.data with
  | [] => false
  | c :: _ => c == '.'

/-- Index of the last `'.'` in a character list (`str.rfind('.')`),
`none` when absent. -/
def lastDotIdx (l : List Char) : Option Nat :=
  match l.reverse.findIdx? (fun c => c == '.') with
  | some j => some (l.length - 1 - j)
  | none => none

/-- `pathlib.PurePath.stem` of a bare file name: the name up to the last
dot, provided that dot is neither the first character nor the last. -/
def pyStem (name : String) : String :=
  match lastDotIdx name.data with
  | some i =>
    if 0 < i && i + 1 < name.data.length then String.mk (name.data.take i) else name
  | none => name

/-- `pathlib.PurePath.suffix` of a bare file name. -/
def pySuffix (name : String) : String :=
  match lastDotIdx name.data with
  | some i =>
    if 0 < i && i + 1 < name.data.length then String.mk (name.data.drop i) else ""
  | none => ""

/-- `str.lower`, for comparing extensions case-insensitively. -/
def lowerStr (s : String) : String := String.mk (s.data.map Char.toLower)

/-- The outside world as the program observes it. -/
structure Env where
  /-- `os.getenv('OPENAI_API_KEY')`: `none` when the variable is unset. -/
  apiKey : Option String
  /-- `none` when `images/` does not exist; otherwise its file listing. -/
  imagesDir : Option (List String)
  /-- `encode_image_to_base64` (the `open`/`read`/b64 step): `.error` is a
  raised `OSError` (permissions, deletion mid-run); `.ok` is the payload. -/
  readFile : String → Except String String
  /-- The chat-completions call for a given image: `.ok` is the returned
  message content, `.error` any exception raised inside the `try` block. -/
  apiResp : String → Except String String
  /-- Whether `open(output_path, 'w')`+`write` succeeds for a given path. -/
  writeOk : String → Bool

/-- Output files on disk: an association list from path to content,
newest entry first. -/
abbrev Fs := List (String × String)

/-- Overwrite-or-create semantics of `save_latex_code`'s file write. -/
def setFile (fs : Fs) (p c : String) : Fs :=
  (p, c) :: fs.filter (fun e => e.1 != p)

/-- `AlgorithmImageConverter.save_latex_code`: try to write; on an I/O
error return `False` without raising. -/
def save_latex_code (env : Env) (fs : Fs) (latex_code output_path : String) : Bool × Fs :=
  if env.writeOk output_path then (true, setFile fs output_path latex_code) else (false, fs)

/-- `AlgorithmImageConverter.analyze_algorithm_image`.  The file is read
and encoded BEFORE the `try` block, so a read failure propagates; the API
call and the `.strip()` of its content sit inside `try ... except
Exception: return None`. -/
def analyze_algorithm_image (env : Env) (image_path : String) : Except String (Option String) :=
  match env.readFile image_path with
  | .error e => .error e
  | .ok _payload =>
    match env.apiResp image_path with
    | .ok content => .ok (some (String.mk (stripL content.data)))
    | .error _ => .ok none

/-- `AlgorithmImageConverter.process_single_image`. -/
def process_single_image (env : Env) (fs : Fs) (image_path : String) :
    Except String (Bool × Fs) :=
  match analyze_algorithm_image env image_path with
  | .error e => .error e
  | .ok latex_code =>
    if pyFalsy latex_code then .ok (false, fs)
    else
      match clean_latex_output latex_code with
      | none => .ok (false, fs)
      | some cleaned =>
        if cleaned == "" then .ok (false, fs)
        else
          .ok (save_latex_code env fs cleaned ("codes/" ++ pyStem image_path ++ ".tex"))

/-- The `for image_path in sorted(image_files)` loop: skip hidden names,
count one success or one failure per processed item, and additionally
record the order in which items were handed to `process_single_image`. -/
def runLoop (env : Env) : List String → Nat → Nat → Fs →
    Except String (Nat × Nat × Fs × List String)
  | [], s, f, fs => .ok (s, f, fs, [])
  | p :: rest, s, f, fs =>
    if hiddenName p then runLoop env rest s f fs
    else
      match process_single_image env fs p with
      | .error e => .error e
      | .ok (ok, fs') =>
        match runLoop env rest (if ok then s + 1 else s) (if ok then f else f + 1) fs' with
        | .error e => .error e
        | .ok (s', f', fs'', tr) => .ok (s', f', fs'', p :: tr)

/-- Outcome of one `process_all_images` run. -/
structure RunResult where
  /-- The "Images directory not found" early return was taken. -/
  dirMissing : Bool
  /-- The "No supported image files found" early return was taken. -/
  noFiles : Bool
  /-- `successful` counter at the summary. -/
  successful : Nat
  /-- `failed` counter at the summary. -/
  failed : Nat
  /-- Output directory contents after the run. -/
  outputs : Fs
  /-- Names handed to `process_single_image`, in order. -/
  trace : List String
deriving DecidableEq

deriving instance DecidableEq for Except

/-- `AlgorithmImageConverter.process_all_images`. -/
def process_all_images (env : Env) (fs0 : Fs) : Except String RunResult :=
  match env.imagesDir with
  | none => .ok ⟨true, false, 0, 0, fs0, []⟩
  | some listing =>
    let image_files := discovered listing
    if image_files.isEmpty then .ok ⟨false, true, 0, 0, fs0, []⟩
    else
      match runLoop env (pySort image_files) 0 0 fs0 with
      | .error e => .error e
      | .ok (s, f, fs, tr) => .ok ⟨false, false, s, f, fs, tr⟩

/-- Result of `main`: either the missing-credential early return (taken
before the converter is constructed, so before any read or API call can
occur), or the outcome of the batch. -/
inductive MainResult where
  | missingKey : MainResult
  | ran : Except String RunResult → MainResult
deriving DecidableEq

/-- `main`: check `OPENAI_API_KEY` (Python truthiness: unset or empty is
falsy), then run the batch. -/
def main (env : Env) (fs0 : Fs) : MainResult :=
  match env.apiKey with
  | none => .missingKey
  | some k => if k == "" then .missingKey else .ran (process_all_images env fs0)

/-- The opening fence pattern with the `latex` tag, as a character list. -/
def pat8 : List Char := [btick, btick, btick, 'l', 'a', 't', 'e', 'x']

/-! ### Concrete environments for the scenario claims -/

/-- Environment: two discoverable images, reading the first raises. -/
def envC1 : Env where
  apiKey := some "key"
  imagesDir := some ["a.png", "b.png"]
  readFile := fun p => if p == "a.png" then .error "FileNotFoundError" else .ok "payload"
  apiResp := fun _ => .ok "result"
  writeOk := fun _ => true

/-- Environment of the end-to-end collision scenario of the spec. -/
def envC4 : Env where
  apiKey := some "key"
  imagesDir := some ["alg1.png", "alg1.jpg", "notes.txt"]
  readFile := fun _ => .ok "payload"
  apiResp := fun p => .ok (if p == "alg1.png" then "pngResult" else "jpgResult")
  writeOk := fun _ => true

/-- Listing used by the C6 and C10 witnesses. -/
def dir6 : List String := ["b.png", "a.txt", "a.png"]

/-- Environment over `dir6` where everything succeeds. -/
def envC6w : Env where
  apiKey := some "key"
  imagesDir := some dir6
  readFile := fun _ => .ok "payload"
  apiResp := fun _ => .ok "R"
  writeOk := fun _ => true

/-- The run result of `process_all_images envC6w []`. -/
def res6 : RunResult :=
  ⟨false, false, 2, 0, [("codes/b.tex", "R"), ("codes/a.tex", "R")], ["a.png", "b.png"]⟩

/-- Environment whose inference call raises (caught per item). -/
def envC7 : Env where
  apiKey := some "key"
  imagesDir := some []
  readFile := fun _ => .ok "payload"
  apiResp := fun _ => .error "APIError"
  writeOk := fun _ => true

/-- Environment with the credential variable unset. -/
def envC8 : Env where
  apiKey := none
  imagesDir := some ["a.png"]
  readFile := fun _ => .ok "payload"
  apiResp := fun _ => .ok "result"
  writeOk := fun _ => true

/-- Environment whose images directory does not exist. -/
def envC9a : Env where
  apiKey := some "key"
  imagesDir := none
  readFile := fun _ => .ok "payload"
  apiResp := fun _ => .ok "result"
  writeOk := fun _ => true

/-- Environment whose images directory exists but has no image file. -/
def envC9b : Env where
  apiKey := some "key"
  imagesDir := some ["notes.txt"]
  readFile := fun _ => .ok "payload"
  apiResp := fun _ => .ok "result"
  writeOk := fun _ => true

/-! ### Lemmas about the fence scanners -/

theorem hasT3_cons3 (a b c : Char) (rest : List Char) :
    hasT3 (a :: b :: c :: rest) =
      ((a == btick && b == btick && c == btick) || hasT3 (b :: c :: rest)) := rfl

theorem t3_not_of (a b c : Char) (r : List Char)
    (h : ¬ [btick, btick, btick] <+: (a :: b :: c :: r)) :
    (a == btick && b == btick && c == btick) = false := by
  rw [Bool.eq_false_iff]
  intro hb
  simp only [Bool.and_eq_true, beq_iff_eq] at hb
  obtain ⟨⟨h1, h2⟩, h3⟩ := hb
  exact h ⟨r, by simp [h1, h2, h3]⟩

theorem pat8_not_of (a b c d e f g h8 : Char) (r : List Char)
    (h : ¬ pat8 <+: (a :: b :: c :: d :: e :: f :: g :: h8 :: r)) :
    (a == btick && b == btick && c == btick &&
      d == 'l' && e == 'a' && f == 't' && g == 'e' && h8 == 'x') = false := by
  rw [Bool.eq_false_iff]
  intro hb
  simp only [Bool.and_eq_true, beq_iff_eq] at hb
  obtain ⟨⟨⟨⟨⟨⟨⟨h1, h2⟩, h3⟩, h4⟩, h5⟩, h6⟩, h7⟩, hx⟩ := hb
  exact h ⟨r, by simp [pat8, h1, h2, h3, h4, h5, h6, h7, hx]⟩

theorem sub2_cons_not (a : Char) (t : List Char)
    (h : ¬ [btick, btick, btick] <+: (a :: t)) : sub2 (a :: t) = a :: sub2 t := by
  match t with
  | [] => rfl
  | [x] => rfl
  | [x, y] =>
    show (if a == btick && x == btick && y == btick then [] else [a, x, y]) = a :: sub2 [x, y]
    rw [t3_not_of a x y [] h]
    rfl
  | x :: y :: z :: r =>
    show (if a == btick && x == btick && y == btick then _ else a :: sub2 (x :: y :: z :: r)) =
      a :: sub2 (x :: y :: z :: r)
    rw [t3_not_of a x y (z :: r) h]
    rfl

theorem sub1_cons_not (a : Char) (t : List Char)
    (h : ¬ pat8 <+: (a :: t)) : sub1 (a :: t) = a :: sub1 t := by
  match t with
  | [] => rfl
  | [x1] => rfl
  | [x1, x2] => rfl
  | [x1, x2, x3] => rfl
  | [x1, x2, x3, x4] => rfl
  | [x1, x2, x3, x4, x5] => rfl
  | [x1, x2, x3, x4, x5, x6] => rfl
  | x1 :: x2 :: x3 :: x4 :: x5 :: x6 :: x7 :: r =>
    have hc := pat8_not_of a x1 x2 x3 x4 x5 x6 x7 r h
    conv_lhs => rw [sub1.eq_def]
    dsimp only
    rw [hc]
    simp


theorem sub2_cons4 (a b c d : Char) (rest : List Char) :
    sub2 (a :: b :: c :: d :: rest) =
      if a == btick && b == btick && c == btick then
        (if d == nl then sub2 rest else sub2 (d :: rest))
      else a :: sub2 (b :: c :: d :: rest) := rfl

theorem sub2_cons3 (a b c : Char) :
    sub2 [a, b, c] =
      (if a == btick && b == btick && c == btick then [] else [a, b, c]) := rfl

theorem noT3_parts (a b c : Char) (rest : List Char)
    (h : hasT3 (a :: b :: c :: rest) = false) :
    (a == btick && b == btick && c == btick) = false ∧ hasT3 (b :: c :: rest) = false := by
  rw [hasT3_cons3] at h
  exact ⟨(Bool.or_eq_false_iff.mp h).1, (Bool.or_eq_false_iff.mp h).2⟩

theorem not_t3pre_of_check (a b c : Char) (r : List Char)
    (h : (a == btick && b == btick && c == btick) = false) :
    ¬ [btick, btick, btick] <+: (a :: b :: c :: r) := by
  intro hpre
  obtain ⟨t, ht⟩ := hpre
  simp only [List.cons_append, List.nil_append, List.cons.injEq] at ht
  obtain ⟨h1, h2, h3, -⟩ := ht
  subst h1; subst h2; subst h3
  simp at h

theorem not_t3pre_of_first (a : Char) (t : List Char)
    (ha : (a == btick) = false) : ¬ [btick, btick, btick] <+: (a :: t) := by
  intro hpre
  obtain ⟨r, hr⟩ := hpre
  simp only [List.cons_append, List.nil_append, List.cons.injEq] at hr
  obtain ⟨h1, -⟩ := hr
  subst h1
  simp at ha

theorem not_t3pre_of_second (a b : Char) (t : List Char)
    (hb : (b == btick) = false) : ¬ [btick, btick, btick] <+: (a :: b :: t) := by
  intro hpre
  obtain ⟨r, hr⟩ := hpre
  simp only [List.cons_append, List.nil_append, List.cons.injEq] at hr
  obtain ⟨-, h2, -⟩ := hr
  subst h2
  simp at hb

theorem not_pat8pre_of_check (a b c : Char) (r : List Char)
    (h : (a == btick && b == btick && c == btick) = false) :
    ¬ pat8 <+: (a :: b :: c :: r) := by
  intro hpre
  obtain ⟨t, ht⟩ := hpre
  simp only [pat8, List.cons_append, List.nil_append, List.cons.injEq] at ht
  obtain ⟨h1, h2, h3, -⟩ := ht
  subst h1; subst h2; subst h3
  simp at h

theorem hasT3_short (l : List Char)
    (hs : ∀ (a b c : Char) (rest : List Char), l = a :: b :: c :: rest → False) :
    hasT3 l = false := by
  match l with
  | [] => rfl
  | [x] => rfl
  | [x, y] => rfl
  | x :: y :: z :: r => exact (hs x y z r rfl).elim

theorem noT3_sub1 : ∀ l, hasT3 l = false → sub1 l = l := by
  intro l
  induction l using ToAlgo.hasT3.induct with
  | case1 a b c rest ih =>
    intro h
    obtain ⟨h1, h2⟩ := noT3_parts a b c rest h
    rw [sub1_cons_not a (b :: c :: rest) (not_pat8pre_of_check a b c rest h1), ih h2]
  | case2 t hs =>
    intro _
    match t, hs with
    | [], _ => rfl
    | [x], _ => rfl
    | [x, y], _ => rfl
    | x :: y :: z :: r, hs => exact (hs x y z r rfl).elim

theorem noT3_sub2 : ∀ l, hasT3 l = false → sub2 l = l := by
  intro l
  induction l using ToAlgo.hasT3.induct with
  | case1 a b c rest ih =>
    intro h
    obtain ⟨h1, h2⟩ := noT3_parts a b c rest h
    rw [sub2_cons_not a (b :: c :: rest) (not_t3pre_of_check a b c rest h1), ih h2]
  | case2 t hs =>
    intro _
    match t, hs with
    | [], _ => rfl
    | [x], _ => rfl
    | [x, y], _ => rfl
    | x :: y :: z :: r, hs => exact (hs x y z r rfl).elim

theorem sub2_noT3 : ∀ l, hasT3 (sub2 l) = false := by
  intro l
  induction l using ToAlgo.sub2.induct with
  | case1 a b c d rest h hd ih =>
    rw [sub2_cons4, if_pos h, if_pos hd]
    exact ih
  | case2 a b c d rest h hd ih =>
    rw [sub2_cons4, if_pos h, if_neg hd]
    exact ih
  | case3 a b c d rest h ih =>
    have h' : (a == btick && b == btick && c == btick) = false := Bool.eq_false_iff.mpr h
    rw [sub2_cons4, if_neg h]
    by_cases hA : (a == btick) = true
    · by_cases hB : (b == btick) = true
      · have hC : (c == btick) = false := by
          rw [hA, hB] at h'
          simpa using h'
        have e1 : sub2 (b :: c :: d :: rest) = b :: sub2 (c :: d :: rest) :=
          sub2_cons_not b (c :: d :: rest) (not_t3pre_of_second b c (d :: rest) hC)
        have e2 : sub2 (c :: d :: rest) = c :: sub2 (d :: rest) :=
          sub2_cons_not c (d :: rest) (not_t3pre_of_first c (d :: rest) hC)
        rw [e1, e2] at ih ⊢
        rw [hasT3_cons3, h', ih]
        rfl
      · have hB' : (b == btick) = false := Bool.eq_false_iff.mpr hB
        have e1 : sub2 (b :: c :: d :: rest) = b :: sub2 (c :: d :: rest) :=
          sub2_cons_not b (c :: d :: rest) (not_t3pre_of_first b (c :: d :: rest) hB')
        rw [e1] at ih ⊢
        cases hX : sub2 (c :: d :: rest) with
        | nil => rfl
        | cons u t =>
          rw [hX] at ih
          rw [hasT3_cons3]
          have hc2 : (a == btick && b == btick && u == btick) = false := by
            simp [hB']
          rw [hc2, ih]
          rfl
    · have hA' : (a == btick) = false := Bool.eq_false_iff.mpr hA
      cases hX : sub2 (b :: c :: d :: rest) with
      | nil => rfl
      | cons u t =>
        rw [hX] at ih
        cases t with
        | nil => rfl
        | cons v t2 =>
          rw [hasT3_cons3]
          have hc2 : (a == btick && u == btick && v == btick) = false := by
            simp [hA']
          rw [hc2, ih]
          rfl
  | case4 a b c h =>
    rw [sub2_cons3, if_pos h]
    rfl
  | case5 a b c h =>
    have h' : (a == btick && b == btick && c == btick) = false := Bool.eq_false_iff.mpr h
    rw [sub2_cons3, if_neg h, hasT3_cons3, h']
    rfl
  | case6 l hs1 hs2 =>
    match l, hs1, hs2 with
    | [], _, _ => rfl
    | [x], _, _ => rfl
    | [x, y], _, _ => rfl
    | [x, y, z], _, hs2 => exact (hs2 x y z rfl).elim
    | x :: y :: z :: w :: r, hs1, _ => exact (hs1 x y z w r rfl).elim

theorem noT3_sub1_app : ∀ l, hasT3 l = false →
    sub1 (l ++ [nl, btick, btick, btick]) = l ++ [nl, btick, btick, btick] := by
  intro l
  induction l using ToAlgo.hasT3.induct with
  | case1 a b c rest ih =>
    intro h
    obtain ⟨h1, h2⟩ := noT3_parts a b c rest h
    have e := sub1_cons_not a (b :: c :: (rest ++ [nl, btick, btick, btick]))
      (not_pat8pre_of_check a b c (rest ++ [nl, btick, btick, btick]) h1)
    have ihh := ih h2
    simp only [List.cons_append] at ihh ⊢
    rw [e, ihh]
  | case2 t hs =>
    intro _
    match t, hs with
    | [], _ => rfl
    | [x], _ => rfl
    | [x, y], _ => rfl
    | x :: y :: z :: r, hs => exact (hs x y z r rfl).elim

theorem noT3_sub2_app : ∀ l, hasT3 l = false →
    sub2 (l ++ [nl, btick, btick, btick]) = l ++ [nl] := by
  intro l
  induction l using ToAlgo.hasT3.induct with
  | case1 a b c rest ih =>
    intro h
    obtain ⟨h1, h2⟩ := noT3_parts a b c rest h
    have e := sub2_cons_not a (b :: c :: (rest ++ [nl, btick, btick, btick]))
      (not_t3pre_of_check a b c (rest ++ [nl, btick, btick, btick]) h1)
    have ihh := ih h2
    simp only [List.cons_append] at ihh ⊢
    rw [e, ihh]
  | case2 t hs =>
    intro _
    match t, hs with
    | [], _ => decide
    | [x], _ =>
      have e1 : sub2 (x :: [nl, btick, btick, btick]) = x :: sub2 [nl, btick, btick, btick] :=
        sub2_cons_not x [nl, btick, btick, btick]
          (not_t3pre_of_second x nl [btick, btick, btick] (by decide))
      show sub2 (x :: [nl, btick, btick, btick]) = x :: [nl]
      rw [e1, show sub2 [nl, btick, btick, btick] = [nl] from by decide]
    | [x, y], _ =>
      have e1 : sub2 (x :: y :: [nl, btick, btick, btick]) =
          x :: sub2 (y :: [nl, btick, btick, btick]) :=
        sub2_cons_not x (y :: [nl, btick, btick, btick])
          (not_t3pre_of_check x y nl [btick, btick, btick] (by simp [show (nl == btick) = false from rfl]))
      have e2 : sub2 (y :: [nl, btick, btick, btick]) = y :: sub2 [nl, btick, btick, btick] :=
        sub2_cons_not y [nl, btick, btick, btick]
          (not_t3pre_of_second y nl [btick, btick, btick] (by decide))
      show sub2 (x :: y :: [nl, btick, btick, btick]) = x :: y :: [nl]
      rw [e1, e2, show sub2 [nl, btick, btick, btick] = [nl] from by decide]
    | x :: y :: z :: r, hs => exact (hs x y z r rfl).elim

theorem dw_dw (p : Char → Bool) (l : List Char) :
    (l.dropWhile p).dropWhile p = l.dropWhile p := by
  induction l with
  | nil => rfl
  | cons c t ih =>
    rw [List.dropWhile_cons]
    by_cases hc : p c = true
    · rw [if_pos hc]; exact ih
    · rw [if_neg hc, List.dropWhile_cons, if_neg hc]

theorem dw_suffix (p : Char → Bool) (l : List Char) : l.dropWhile p <:+ l := by
  induction l with
  | nil => exact List.suffix_rfl
  | cons c t ih =>
    rw [List.dropWhile_cons]
    by_cases hc : p c = true
    · rw [if_pos hc]; exact ih.trans (List.suffix_cons c t)
    · rw [if_neg hc]

theorem suffix_rev {l1 l2 : List Char} (h : l1 <:+ l2) : l1.reverse <+: l2.reverse := by
  obtain ⟨t, ht⟩ := h
  exact ⟨t.reverse, by rw [← List.reverse_append, ht]⟩

theorem stripR_pre (l : List Char) : stripR l <+: l := by
  have h := suffix_rev (dw_suffix wsChar l.reverse)
  rw [List.reverse_reverse] at h
  exact h

theorem dw_eq_self_head {p : Char → Bool} {X : List Char} (h : X.dropWhile p = X) :
    ∀ c t, X = c :: t → p c = false := by
  intro c t hX
  subst hX
  rw [List.dropWhile_cons] at h
  by_cases hc : p c = true
  · rw [if_pos hc] at h
    have hlen := congrArg List.length h
    simp only [List.length_cons] at hlen
    have hle : (t.dropWhile p).length ≤ t.length := (List.dropWhile_sublist p).length_le
    omega
  · exact Bool.eq_false_iff.mpr hc

theorem dw_of_pre_self {p : Char → Bool} {X Y : List Char} (hXY : Y <+: X)
    (h : X.dropWhile p = X) : Y.dropWhile p = Y := by
  cases Y with
  | nil => rfl
  | cons c t =>
    obtain ⟨r, hr⟩ := hXY
    have hc : p c = false := dw_eq_self_head h c (t ++ r) (by rw [← hr]; rfl)
    rw [List.dropWhile_cons, if_neg (by simp [hc])]

theorem stripR_idem (l : List Char) : stripR (stripR l) = stripR l := by
  show ((stripR l).reverse.dropWhile wsChar).reverse = stripR l
  have hrv : (stripR l).reverse = l.reverse.dropWhile wsChar := by
    show ((l.reverse.dropWhile wsChar).reverse).reverse = _
    rw [List.reverse_reverse]
  rw [hrv, dw_dw, ← hrv, List.reverse_reverse]

theorem strip_idem (l : List Char) : stripL (stripL l) = stripL l := by
  show stripR ((stripR (l.dropWhile wsChar)).dropWhile wsChar) = stripR (l.dropWhile wsChar)
  have hA : (l.dropWhile wsChar).dropWhile wsChar = l.dropWhile wsChar := dw_dw wsChar l
  have hfix : (stripR (l.dropWhile wsChar)).dropWhile wsChar = stripR (l.dropWhile wsChar) :=
    dw_of_pre_self (stripR_pre _) hA
  rw [hfix, stripR_idem]

theorem dw_nil_app (p : Char → Bool) : ∀ (l r : List Char), l.dropWhile p = [] →
    (l ++ r).dropWhile p = r.dropWhile p := by
  intro l
  induction l with
  | nil => intro r _; rfl
  | cons c t ih =>
    intro r h
    rw [List.dropWhile_cons] at h
    by_cases hc : p c = true
    · rw [if_pos hc] at h
      rw [List.cons_append, List.dropWhile_cons, if_pos hc]
      exact ih r h
    · rw [if_neg hc] at h
      exact absurd h (by simp)

theorem dw_app_ne (p : Char → Bool) : ∀ (l r : List Char), l.dropWhile p ≠ [] →
    (l ++ r).dropWhile p = l.dropWhile p ++ r := by
  intro l
  induction l with
  | nil => intro r h; exact absurd rfl h
  | cons c t ih =>
    intro r h
    rw [List.dropWhile_cons] at h
    by_cases hc : p c = true
    · rw [if_pos hc] at h
      rw [List.cons_append, List.dropWhile_cons, if_pos hc, List.dropWhile_cons, if_pos hc]
      exact ih r h
    · rw [if_neg hc] at h
      rw [List.cons_append, List.dropWhile_cons, if_neg hc, List.dropWhile_cons, if_neg hc]
      rfl

theorem stripR_app_ws {x : Char} (hx : wsChar x = true) (l : List Char) :
    stripR (l ++ [x]) = stripR l := by
  show ((l ++ [x]).reverse.dropWhile wsChar).reverse = _
  rw [List.reverse_append, List.reverse_singleton, List.singleton_append,
    List.dropWhile_cons, if_pos hx]
  rfl

theorem strip_app_nl (l : List Char) : stripL (l ++ [nl]) = stripL l := by
  show stripR ((l ++ [nl]).dropWhile wsChar) = stripR (l.dropWhile wsChar)
  by_cases h : l.dropWhile wsChar = []
  · rw [dw_nil_app wsChar l [nl] h, h,
      show ([nl].dropWhile wsChar) = ([] : List Char) from by decide]
  · rw [dw_app_ne wsChar l [nl] h, stripR_app_ws (by decide) _]

theorem hasT3_iff_found : ∀ l, hasT3 l = true ↔ [btick, btick, btick] <:+: l := by
  intro l
  induction l using ToAlgo.hasT3.induct with
  | case1 a b c rest ih =>
    rw [hasT3_cons3]
    constructor
    · intro h
      rcases Bool.or_eq_true_iff.mp h with h1 | h2
      · simp only [Bool.and_eq_true, beq_iff_eq] at h1
        obtain ⟨⟨e1, e2⟩, e3⟩ := h1
        exact ⟨[], rest, by simp [e1, e2, e3]⟩
      · obtain ⟨s, t, hst⟩ := ih.mp h2
        exact ⟨a :: s, t, by rw [← hst]; rfl⟩
    · intro hin
      obtain ⟨s, t, hst⟩ := hin
      cases s with
      | nil =>
        simp only [List.nil_append, List.cons_append, List.cons.injEq] at hst
        obtain ⟨e1, e2, e3, -⟩ := hst
        apply Bool.or_eq_true_iff.mpr
        left
        simp [← e1, ← e2, ← e3]
      | cons x s' =>
        apply Bool.or_eq_true_iff.mpr
        right
        apply ih.mpr
        simp only [List.cons_append, List.cons.injEq] at hst
        exact ⟨s', t, hst.2⟩
  | case2 t hs =>
    have hfalse : hasT3 t = false := hasT3_short t hs
    constructor
    · intro h
      rw [hfalse] at h
      cases h
    · intro hin
      exfalso
      obtain ⟨s, u, hsu⟩ := hin
      have hlen := congrArg List.length hsu
      simp only [List.length_append, List.length_cons, List.length_nil] at hlen
      match t, hs with
      | [], _ =>
        simp only [List.length_nil, List.length_cons] at hlen
        omega
      | [x], _ =>
        simp only [List.length_nil, List.length_cons] at hlen
        omega
      | [x, y], _ =>
        simp only [List.length_nil, List.length_cons] at hlen
        omega
      | x :: y :: z :: r, hs => exact (hs x y z r rfl).elim

theorem hasT3_mono {X Y : List Char} (hXY : X <:+: Y) (h : hasT3 Y = false) :
    hasT3 X = false := by
  cases hT : hasT3 X
  · rfl
  · exfalso
    have hY : hasT3 Y = true := (hasT3_iff_found Y).mpr (((hasT3_iff_found X).mp hT).trans hXY)
    rw [hY] at h
    cases h

theorem strip_within (l : List Char) : stripL l <:+: l := by
  obtain ⟨r, hr⟩ := stripR_pre (l.dropWhile wsChar)
  obtain ⟨s, hs⟩ := dw_suffix wsChar l
  refine ⟨s, r, ?_⟩
  conv_rhs => rw [← hs, ← hr]
  rw [List.append_assoc]
  rfl

theorem mk_ne_empty (l : List Char) (h : l ≠ []) :
    ((String.mk l) == "") = false := by
  rw [Bool.eq_false_iff]
  intro hb
  have he : String.mk l = "" := eq_of_beq hb
  have hd := congrArg String.data he
  exact h hd

theorem clean_eq (s : String) (hs : (s == "") = false) :
    clean_latex_output (some s) = some (String.mk (stripL (sub2 (sub1 s.data)))) := by
  show (if s == "" then none else some (String.mk (stripL (sub2 (sub1 s.data))))) = _
  rw [hs]
  rfl

theorem clean_fix (s r : String)
    (h : clean_latex_output (some s) = some r) (hr : (r == "") = false) :
    clean_latex_output (some r) = some r := by
  by_cases hs : (s == "") = true
  · have hnone : clean_latex_output (some s) = none := by
      show (if s == "" then none else _) = none
      rw [hs]
      rfl
    rw [hnone] at h
    cases h
  · have hs' : (s == "") = false := Bool.eq_false_iff.mpr hs
    rw [clean_eq s hs'] at h
    have hRr : r = String.mk (stripL (sub2 (sub1 s.data))) := (Option.some.inj h).symm
    have hT : hasT3 (stripL (sub2 (sub1 s.data))) = false :=
      hasT3_mono (strip_within (sub2 (sub1 s.data))) (sub2_noT3 (sub1 s.data))
    rw [clean_eq r hr, hRr]
    show some (String.mk (stripL (sub2 (sub1 (stripL (sub2 (sub1 s.data))))))) = _
    rw [noT3_sub1 _ hT, noT3_sub2 _ hT, strip_idem]

theorem not_pat8pre_nl4 (a b c : Char) (t : List Char) :
    ¬ pat8 <+: (a :: b :: c :: nl :: t) := by
  intro hpre
  obtain ⟨r, hr⟩ := hpre
  simp only [pat8, List.cons_append, List.nil_append, List.cons.injEq] at hr
  obtain ⟨-, -, -, h4, -⟩ := hr
  exact absurd h4 (by decide)

theorem not_pat8pre_nl3 (a b : Char) (t : List Char) :
    ¬ pat8 <+: (a :: b :: nl :: t) := by
  intro hpre
  obtain ⟨r, hr⟩ := hpre
  simp only [pat8, List.cons_append, List.nil_append, List.cons.injEq] at hr
  obtain ⟨-, -, h3, -⟩ := hr
  exact absurd h3 (by decide)

theorem not_pat8pre_nl2 (a : Char) (t : List Char) :
    ¬ pat8 <+: (a :: nl :: t) := by
  intro hpre
  obtain ⟨r, hr⟩ := hpre
  simp only [pat8, List.cons_append, List.nil_append, List.cons.injEq] at hr
  obtain ⟨-, h2, -⟩ := hr
  exact absurd h2 (by decide)

theorem not_pat8pre_nl1 (t : List Char) : ¬ pat8 <+: (nl :: t) := by
  intro hpre
  obtain ⟨r, hr⟩ := hpre
  simp only [pat8, List.cons_append, List.nil_append, List.cons.injEq] at hr
  obtain ⟨h1, -⟩ := hr
  exact absurd h1 (by decide)

/-! ### Lemmas about the lexicographic order and sorting -/

theorem lexLe_cons (x y : Char) (as bs : List Char) :
    lexLe (x :: as) (y :: bs) =
      (if x.toNat < y.toNat then true
       else if y.toNat < x.toNat then false
       else lexLe as bs) := rfl

theorem lexLe_head_le {x y : Char} {as bs : List Char}
    (h : lexLe (x :: as) (y :: bs) = true) : x.toNat ≤ y.toNat := by
  rw [lexLe_cons] at h
  by_cases h1 : x.toNat < y.toNat
  · omega
  · rw [if_neg h1] at h
    by_cases h2 : y.toNat < x.toNat
    · rw [if_pos h2] at h
      cases h
    · omega

theorem lexLe_rec {x y : Char} {as bs : List Char} (h : lexLe (x :: as) (y :: bs) = true)
    (hxy : ¬ x.toNat < y.toNat) : lexLe as bs = true := by
  rw [lexLe_cons, if_neg hxy] at h
  by_cases h2 : y.toNat < x.toNat
  · rw [if_pos h2] at h
    cases h
  · rw [if_neg h2] at h
    exact h

theorem lexLe_total : ∀ a b : List Char, lexLe a b = true ∨ lexLe b a = true := by
  intro a
  induction a with
  | nil => intro b; left; rfl
  | cons x as ih =>
    intro b
    cases b with
    | nil => right; rfl
    | cons y bs =>
      by_cases h1 : x.toNat < y.toNat
      · left
        rw [lexLe_cons, if_pos h1]
      · by_cases h2 : y.toNat < x.toNat
        · right
          rw [lexLe_cons, if_pos h2]
        · rcases ih bs with h | h
          · left
            rw [lexLe_cons, if_neg h1, if_neg h2]
            exact h
          · right
            rw [lexLe_cons, if_neg h2, if_neg h1]
            exact h

theorem lexLe_trans : ∀ a b c : List Char,
    lexLe a b = true → lexLe b c = true → lexLe a c = true := by
  intro a
  induction a with
  | nil => intro b c _ _; rfl
  | cons x as ih =>
    intro b c hab hbc
    cases b with
    | nil => cases hab
    | cons y bs =>
      cases c with
      | nil => cases hbc
      | cons z cs =>
        have h1 := lexLe_head_le hab
        have h2 := lexLe_head_le hbc
        rw [lexLe_cons]
        by_cases hxz : x.toNat < z.toNat
        · rw [if_pos hxz]
        · rw [if_neg hxz, if_neg (by omega : ¬ z.toNat < x.toNat)]
          exact ih bs cs (lexLe_rec hab (by omega)) (lexLe_rec hbc (by omega))

theorem SLe_total (a b : String) : SLe a b ∨ SLe b a := lexLe_total a.data b.data

theorem SLe_trans {a b c : String} (h1 : SLe a b) (h2 : SLe b c) : SLe a c :=
  lexLe_trans a.data b.data c.data h1 h2

theorem pyInsert_perm (a : String) : ∀ l, (pyInsert a l).Perm (a :: l) := by
  intro l
  induction l with
  | nil => exact List.Perm.refl _
  | cons b t ih =>
    show (if strLe a b then a :: b :: t else b :: pyInsert a t).Perm (a :: b :: t)
    by_cases h : strLe a b = true
    · rw [if_pos h]
    · rw [if_neg h]
      exact (ih.cons b).trans (List.Perm.swap a b t)

theorem pySort_perm : ∀ l, (pySort l).Perm l := by
  intro l
  induction l with
  | nil => exact List.Perm.refl _
  | cons b t ih =>
    show (pyInsert b (pySort t)).Perm (b :: t)
    exact (pyInsert_perm b (pySort t)).trans (ih.cons b)

theorem pyInsert_sorted (a : String) : ∀ l, l.Pairwise SLe → (pyInsert a l).Pairwise SLe := by
  intro l
  induction l with
  | nil => intro _; exact List.pairwise_singleton SLe a
  | cons b t ih =>
    intro hp
    obtain ⟨hb, ht⟩ := List.pairwise_cons.mp hp
    show (if strLe a b then a :: b :: t else b :: pyInsert a t).Pairwise SLe
    by_cases h : strLe a b = true
    · rw [if_pos h]
      apply List.pairwise_cons.mpr
      refine ⟨?_, hp⟩
      intro x hx
      rcases List.mem_cons.mp hx with rfl | hx'
      · exact h
      · exact SLe_trans h (hb x hx')
    · rw [if_neg h]
      apply List.pairwise_cons.mpr
      refine ⟨?_, ih ht⟩
      intro x hx
      have hx2 : x ∈ a :: t := (pyInsert_perm a t).mem_iff.mp hx
      rcases List.mem_cons.mp hx2 with he | hx'
      · rw [he]
        rcases SLe_total a b with h1 | h1
        · exact absurd h1 h
        · exact h1
      · exact hb x hx'

theorem pySort_sorted : ∀ l, (pySort l).Pairwise SLe := by
  intro l
  induction l with
  | nil => exact List.Pairwise.nil
  | cons b t ih => exact pyInsert_sorted b (pySort t) ih

/-! ### Lemmas about discovery -/

theorem two_pre {l1 l2 n : List Char} (h1 : l1 <+: n) (h2 : l2 <+: n)
    (hlen : l1.length ≤ l2.length) : l1 <+: l2 := by
  obtain ⟨t1, ht1⟩ := h1
  obtain ⟨t2, ht2⟩ := h2
  have he : l1 ++ t1 = l2 ++ t2 := ht1.trans ht2.symm
  have e1 : (l2 ++ t2).take l1.length = l1 := by
    rw [← he, List.take_left]
  have e2 : (l2 ++ t2).take l1.length = l2.take l1.length :=
    List.take_append_of_le_length hlen
  have hpre : l2.take l1.length <+: l2 := List.take_prefix _ _
  rw [← e2, e1] at hpre
  exact hpre

theorem pre_rev {l1 l2 : List Char} (h : l1.reverse <+: l2.reverse) : l1 <:+ l2 := by
  obtain ⟨t, ht⟩ := h
  refine ⟨t.reverse, ?_⟩
  have hrv := congrArg List.reverse ht
  rw [List.reverse_append, List.reverse_reverse, List.reverse_reverse] at hrv
  exact hrv

theorem two_suffix {l1 l2 n : List Char} (h1 : l1 <:+ n) (h2 : l2 <:+ n)
    (hlen : l1.length ≤ l2.length) : l1 <:+ l2 := by
  apply pre_rev
  apply two_pre (suffix_rev h1) (suffix_rev h2)
  simpa using hlen

theorem formats_disjoint (name s1 s2 : String)
    (h1 : s1 ∈ supported_formats) (h2 : s2 ∈ supported_formats) (hne : s1 ≠ s2) :
    ¬ (s1.data <:+ name.data ∧ s2.data <:+ name.data) := by
  intro hboth
  obtain ⟨ha, hb⟩ := hboth
  rcases Nat.le_total s1.data.length s2.data.length with hl | hl
  · have hsuf := two_suffix ha hb hl
    fin_cases h1 <;> fin_cases h2 <;>
      first
        | exact hne rfl
        | exact absurd hsuf (by decide)
  · have hsuf := two_suffix hb ha hl
    fin_cases h1 <;> fin_cases h2 <;>
      first
        | exact hne rfl
        | exact absurd hsuf (by decide)

theorem filter_disj (s1 s2 : String) (dir : List String)
    (h1 : s1 ∈ supported_formats) (h2 : s2 ∈ supported_formats) (hne : s1 ≠ s2) :
    (dir.filter (globMatches s1)).Disjoint (dir.filter (globMatches s2)) := by
  intro x hx1 hx2
  have g1 := (List.mem_filter.mp hx1).2
  have g2 := (List.mem_filter.mp hx2).2
  simp only [globMatches, decide_eq_true_eq] at g1 g2
  exact formats_disjoint x s1 s2 h1 h2 hne ⟨g1, g2⟩

theorem discovered_eq (dir : List String) :
    discovered dir =
      dir.filter (globMatches ".png") ++ dir.filter (globMatches ".jpg") ++
      dir.filter (globMatches ".jpeg") ++ dir.filter (globMatches ".gif") ++
      dir.filter (globMatches ".webp") := rfl

theorem mem_discovered (dir : List String) (name : String) :
    name ∈ discovered dir ↔
      name ∈ dir ∧ ∃ suf ∈ supported_formats, suf.data <:+ name.data := by
  rw [discovered_eq]
  simp only [List.mem_append, List.mem_filter, globMatches, decide_eq_true_eq,
    supported_formats, List.mem_cons, List.not_mem_nil, or_false, exists_eq_or_imp,
    exists_eq_left]
  tauto

theorem nodup_discovered (dir : List String) (h : dir.Nodup) : (discovered dir).Nodup := by
  rw [discovered_eq]
  have hpng : (".png" : String) ∈ supported_formats := by decide
  have hjpg : (".jpg" : String) ∈ supported_formats := by decide
  have hjpeg : (".jpeg" : String) ∈ supported_formats := by decide
  have hgif : (".gif" : String) ∈ supported_formats := by decide
  have hwebp : (".webp" : String) ∈ supported_formats := by decide
  refine List.Nodup.append (List.Nodup.append (List.Nodup.append (List.Nodup.append
    (h.filter _) (h.filter _) ?_) (h.filter _) ?_) (h.filter _) ?_) (h.filter _) ?_
  · exact filter_disj ".png" ".jpg" dir hpng hjpg (by decide)
  · simp only [List.disjoint_append_left]
    exact ⟨filter_disj ".png" ".jpeg" dir hpng hjpeg (by decide),
      filter_disj ".jpg" ".jpeg" dir hjpg hjpeg (by decide)⟩
  · simp only [List.disjoint_append_left]
    exact ⟨⟨filter_disj ".png" ".gif" dir hpng hgif (by decide),
      filter_disj ".jpg" ".gif" dir hjpg hgif (by decide)⟩,
      filter_disj ".jpeg" ".gif" dir hjpeg hgif (by decide)⟩
  · simp only [List.disjoint_append_left]
    exact ⟨⟨⟨filter_disj ".png" ".webp" dir hpng hwebp (by decide),
      filter_disj ".jpg" ".webp" dir hjpg hwebp (by decide)⟩,
      filter_disj ".jpeg" ".webp" dir hjpeg hwebp (by decide)⟩,
      filter_disj ".gif" ".webp" dir hgif hwebp (by decide)⟩

/-! ### Lemmas about the processing loop -/

theorem runLoop_cons (env : Env) (p : String) (rest : List String) (s f : Nat) (fs : Fs) :
    runLoop env (p :: rest) s f fs =
      (if hiddenName p then runLoop env rest s f fs
       else
        match process_single_image env fs p with
        | .error e => .error e
        | .ok (ok, fs') =>
          match runLoop env rest (if ok then s + 1 else s) (if ok then f else f + 1) fs' with
          | .error e => .error e
          | .ok (s', f', fs'', tr) => .ok (s', f', fs'', p :: tr)) := rfl

theorem runLoop_ok (env : Env) : ∀ (files : List String) (s f : Nat) (fs : Fs)
    (out : Nat × Nat × Fs × List String),
    runLoop env files s f fs = .ok out →
    out.1 + out.2.1 = s + f + (files.filter (fun n => !hiddenName n)).length ∧
    out.2.2.2 = files.filter (fun n => !hiddenName n) := by
  intro files
  induction files with
  | nil =>
    intro s f fs out h
    cases h
    simp
  | cons p rest ih =>
    intro s f fs out h
    rw [runLoop_cons] at h
    by_cases hp : hiddenName p = true
    · rw [if_pos hp] at h
      have hres := ih s f fs out h
      simpa [List.filter_cons, hp] using hres
    · rw [if_neg hp] at h
      cases hps : process_single_image env fs p with
      | error e =>
        rw [hps] at h
        simp at h
      | ok pr =>
        obtain ⟨okb, fs'⟩ := pr
        rw [hps] at h
        dsimp only at h
        cases hrl : runLoop env rest (if okb then s + 1 else s)
            (if okb then f else f + 1) fs' with
        | error e =>
          rw [hrl] at h
          simp at h
        | ok out2 =>
          obtain ⟨s', f', fs'', tr⟩ := out2
          rw [hrl] at h
          have hout : out = (s', f', fs'', p :: tr) := by
            cases h
            rfl
          subst hout
          have hih := ih _ _ fs' (s', f', fs'', tr) hrl
          have hfc : List.filter (fun n => !hiddenName n) (p :: rest) =
              p :: List.filter (fun n => !hiddenName n) rest := by
            simp [List.filter_cons, Bool.eq_false_iff.mpr hp]
          constructor
          · have h1 := hih.1
            rw [hfc, List.length_cons]
            cases okb <;> simp at h1 ⊢ <;> omega
          · have h2 := hih.2
            dsimp only at h2
            rw [hfc]
            show p :: tr = p :: List.filter (fun n => !hiddenName n) rest
            rw [h2]

theorem ps_isOk (env : Env) (fs : Fs) (p : String)
    (hread : ∃ s, env.readFile p = .ok s) :
    ∃ v, process_single_image env fs p = .ok v := by
  obtain ⟨pay, hp⟩ := hread
  unfold process_single_image analyze_algorithm_image
  rw [hp]
  cases env.apiResp p with
  | ok content =>
    dsimp only
    by_cases h1 : pyFalsy (some (String.mk (stripL content.data))) = true
    · rw [if_pos h1]
      exact ⟨_, rfl⟩
    · rw [if_neg h1]
      cases hcl : clean_latex_output (some (String.mk (stripL content.data))) with
      | none => exact ⟨_, rfl⟩
      | some cleaned =>
        dsimp only
        by_cases h2 : (cleaned == "") = true
        · rw [if_pos h2]
          exact ⟨_, rfl⟩
        · rw [if_neg h2]
          exact ⟨_, rfl⟩
  | error e =>
    dsimp only
    exact ⟨_, rfl⟩

theorem runLoop_total (env : Env) (hread : ∀ p, ∃ s, env.readFile p = .ok s) :
    ∀ (files : List String) (s f : Nat) (fs : Fs),
      ∃ out, runLoop env files s f fs = .ok out := by
  intro files
  induction files with
  | nil => intro s f fs; exact ⟨_, rfl⟩
  | cons p rest ih =>
    intro s f fs
    rw [runLoop_cons]
    by_cases hp : hiddenName p = true
    · rw [if_pos hp]
      exact ih s f fs
    · rw [if_neg hp]
      obtain ⟨⟨okb, fs'⟩, hv⟩ := ps_isOk env fs p (hread p)
      rw [hv]
      dsimp only
      obtain ⟨out2, h2⟩ := ih (if okb then s + 1 else s) (if okb then f else f + 1) fs'
      obtain ⟨s', f', fs'', tr⟩ := out2
      rw [h2]
      exact ⟨_, rfl⟩

/-! ### The claims -/

/-- Claim C1, counterexample: with two discovered images where reading the
first raises, the exception escapes `process_all_images` and the batch dies
(contrary to the claim that a read failure is confined to its item). -/
theorem C1_counterexample :
    process_all_images envC1 [] = .error "FileNotFoundError" := by decide

/-- Claim C1, amended: an exception raised inside the inference call is
confined to its item (the `try` block catches it and the loop continues),
and when no file read raises, no exception terminates
`process_all_images`; but a read failure raises out of the batch, because
`encode_image_to_base64` runs before the `try` block. -/
theorem C1_amended (env : Env) (fs0 : Fs)
    (hread : ∀ p, ∃ s, env.readFile p = .ok s) :
    ∃ res, process_all_images env fs0 = .ok res := by
  unfold process_all_images
  cases hdir : env.imagesDir with
  | none => exact ⟨_, rfl⟩
  | some listing =>
    dsimp only
    by_cases hemp : (discovered listing).isEmpty = true
    · rw [if_pos hemp]
      exact ⟨_, rfl⟩
    · rw [if_neg hemp]
      obtain ⟨out, hout⟩ := runLoop_total env hread (pySort (discovered listing)) 0 0 fs0
      obtain ⟨s, f, fs, tr⟩ := out
      rw [hout]
      exact ⟨_, rfl⟩

/-- Witness for C1: under an environment whose reads all succeed (but whose
API responses are arbitrary), the batch returns normally. -/
theorem C1_witness : ∃ res, process_all_images envC4 [] = .ok res :=
  C1_amended envC4 [] (fun _ => ⟨"payload", rfl⟩)

/-- Claim C2, counterexample: a fence tagged with a language other than
latex keeps its tag in the output; the sanitizer only deletes the
three-backtick markers and the literal tag "latex", so the claimed
"interior content only" result is wrong for "python". -/
theorem C2_counterexample :
    clean_latex_output (some "```python\nX\n```") = some "python\nX" ∧
      clean_latex_output (some "```python\nX\n```") ≠ some "X" := by decide

/-- Claim C2, amended: for a response wrapped in an untagged fence or in a
fence tagged exactly `latex`, whose interior contains no triple backtick,
the sanitizer removes both fence markers and returns the interior trimmed
of surrounding whitespace; a fence with any other language tag keeps the
tag text in the output (see the counterexample). -/
theorem C2_amended (interior : List Char) (h : hasT3 interior = false) :
    clean_latex_output (some (String.mk
        ([btick, btick, btick, 'l', 'a', 't', 'e', 'x', nl] ++ interior ++
          [nl, btick, btick, btick]))) = some (String.mk (stripL interior)) ∧
    clean_latex_output (some (String.mk
        ([btick, btick, btick, nl] ++ interior ++ [nl, btick, btick, btick]))) =
      some (String.mk (stripL interior)) := by
  constructor
  · rw [clean_eq _ (mk_ne_empty _ (by simp))]
    have e1 : sub1 (([btick, btick, btick, 'l', 'a', 't', 'e', 'x', nl] ++ interior ++
        [nl, btick, btick, btick]) : List Char) =
        sub1 (interior ++ [nl, btick, btick, btick]) := rfl
    show some (String.mk (stripL (sub2 (sub1 ([btick, btick, btick, 'l', 'a', 't', 'e', 'x', nl]
      ++ interior ++ [nl, btick, btick, btick]))))) = _
    rw [e1, noT3_sub1_app interior h, noT3_sub2_app interior h, strip_app_nl]
  · rw [clean_eq _ (mk_ne_empty _ (by simp))]
    show some (String.mk (stripL (sub2 (sub1 ([btick, btick, btick, nl] ++ interior ++
      [nl, btick, btick, btick]))))) = _
    have f1 : sub1 (([btick, btick, btick, nl] ++ interior ++ [nl, btick, btick, btick]) :
        List Char) =
        btick :: sub1 (btick :: btick :: nl :: (interior ++ [nl, btick, btick, btick])) :=
      sub1_cons_not btick (btick :: btick :: nl :: (interior ++ [nl, btick, btick, btick]))
        (not_pat8pre_nl4 btick btick btick _)
    have f2 : sub1 (btick :: btick :: nl :: (interior ++ [nl, btick, btick, btick])) =
        btick :: sub1 (btick :: nl :: (interior ++ [nl, btick, btick, btick])) :=
      sub1_cons_not btick (btick :: nl :: (interior ++ [nl, btick, btick, btick]))
        (not_pat8pre_nl3 btick btick _)
    have f3 : sub1 (btick :: nl :: (interior ++ [nl, btick, btick, btick])) =
        btick :: sub1 (nl :: (interior ++ [nl, btick, btick, btick])) :=
      sub1_cons_not btick (nl :: (interior ++ [nl, btick, btick, btick]))
        (not_pat8pre_nl2 btick _)
    have f4 : sub1 (nl :: (interior ++ [nl, btick, btick, btick])) =
        nl :: sub1 (interior ++ [nl, btick, btick, btick]) :=
      sub1_cons_not nl (interior ++ [nl, btick, btick, btick]) (not_pat8pre_nl1 _)
    rw [f1, f2, f3, f4, noT3_sub1_app interior h, sub2_cons4,
      if_pos (show (btick == btick && btick == btick && btick == btick) = true from rfl),
      if_pos (show (nl == nl) = true from rfl),
      noT3_sub2_app interior h, strip_app_nl]

/-- Witness for C2 at the one-character interior X. -/
theorem C2_witness :
    hasT3 "X".data = false ∧
      clean_latex_output (some (String.mk
        ([btick, btick, btick, 'l', 'a', 't', 'e', 'x', nl] ++ "X".data ++
          [nl, btick, btick, btick]))) = some (String.mk (stripL "X".data)) :=
  ⟨by decide, (C2_amended "X".data (by decide)).1⟩

/-- Claim C3, counterexample: the file a.PNG has extension .PNG, whose
lower-casing is in the allow-list, yet discovery does not select it:
the glob patterns match the suffix case-sensitively. -/
theorem C3_counterexample :
    lowerStr (pySuffix "a.PNG") ∈ supported_formats ∧
      "a.PNG" ∉ discovered ["a.PNG"] := by decide

/-- Claim C3, amended: discovery selects exactly the directory entries
whose name ends, case-sensitively, with one of the five supported
suffixes; a file differing from a listed extension only in letter case is
not selected. -/
theorem C3_amended (dir : List String) (name : String) :
    name ∈ discovered dir ↔
      name ∈ dir ∧ ∃ suf ∈ supported_formats, suf.data <:+ name.data :=
  mem_discovered dir name

/-- Witness for C3: a lower-case .png file is selected. -/
theorem C3_witness : ("a.png" : String) ∈ discovered ["a.png"] :=
  (C3_amended ["a.png"] "a.png").mpr (by decide)

/-- Claim C4: in the scenario with alg1.png, alg1.jpg and notes.txt,
discovery (after the sort) returns the two images in order alg1.jpg,
alg1.png with the text file excluded; both write to codes/alg1.tex, the
name being the stem-determined output name; the second processed image
(alg1.png) overwrites the first, and the final state has exactly that one
output file holding the second image's result. -/
theorem C4_spec :
    pySort (discovered ["alg1.png", "alg1.jpg", "notes.txt"]) = ["alg1.jpg", "alg1.png"] ∧
    process_single_image envC4 [] "alg1.jpg" =
      .ok (true, [("codes/alg1.tex", "jpgResult")]) ∧
    process_all_images envC4 [] =
      .ok ⟨false, false, 2, 0, [("codes/alg1.tex", "pngResult")], ["alg1.jpg", "alg1.png"]⟩ ∧
    "codes/" ++ pyStem "alg1.png" ++ ".tex" = "codes/alg1.tex" ∧
    "codes/" ++ pyStem "alg1.jpg" ++ ".tex" = "codes/alg1.tex" := by decide

/-- Claim C5, counterexample: the sanitizer is not idempotent on the
non-empty input of three backticks: one application yields the empty
string, a second application turns that into the absent value. -/
theorem C5_counterexample :
    clean_latex_output (clean_latex_output (some "```")) ≠
      clean_latex_output (some "```") := by decide

/-- Claim C5, amended: the sanitizer is idempotent on every input whose
first application does not produce the empty string (in particular on
every input that yields a usable result); the only failures are inputs
collapsing to empty, where the second application returns the absent
value instead. -/
theorem C5_amended (s : String) (hne : clean_latex_output (some s) ≠ some "") :
    clean_latex_output (clean_latex_output (some s)) = clean_latex_output (some s) := by
  by_cases hs : (s == "") = true
  · have hnone : clean_latex_output (some s) = none := by
      show (if s == "" then none else _) = none
      rw [hs]
      rfl
    rw [hnone]
    rfl
  · have hs' := Bool.eq_false_iff.mpr hs
    rw [clean_eq s hs']
    have hr : ((String.mk (stripL (sub2 (sub1 s.data)))) == "") = false := by
      rw [Bool.eq_false_iff]
      intro hb
      apply hne
      rw [clean_eq s hs']
      exact congrArg some (eq_of_beq hb)
    exact clean_fix s _ (clean_eq s hs') hr

/-- Witness for C5 at a plain input. -/
theorem C5_witness :
    clean_latex_output (clean_latex_output (some "abc")) =
      clean_latex_output (some "abc") :=
  C5_amended "abc" (by decide)

/-- Claim C6: when the run returns normally, the processed items are
exactly the directory entries ending with a supported suffix and not
starting with a dot, each processed exactly once (no duplicates although
discovery globs once per pattern), in code-point-lexicographically sorted
order over the whole discovered list. -/
theorem C6_spec (env : Env) (dir : List String) (fs0 : Fs) (res : RunResult)
    (hdir : env.imagesDir = some dir) (hnd : dir.Nodup)
    (hok : process_all_images env fs0 = .ok res) :
    res.trace.Nodup ∧ res.trace.Pairwise SLe ∧
      ∀ name, name ∈ res.trace ↔
        (name ∈ dir ∧ (∃ suf ∈ supported_formats, suf.data <:+ name.data) ∧
          hiddenName name = false) := by
  unfold process_all_images at hok
  rw [hdir] at hok
  dsimp only at hok
  by_cases hemp : (discovered dir).isEmpty = true
  · rw [if_pos hemp] at hok
    have hres : res = ⟨false, true, 0, 0, fs0, []⟩ := by
      cases hok
      rfl
    subst hres
    refine ⟨List.nodup_nil, List.Pairwise.nil, ?_⟩
    intro name
    simp only [List.not_mem_nil, false_iff]
    intro hcontra
    obtain ⟨hmem, ⟨suf, hsuf1, hsuf2⟩, hhid⟩ := hcontra
    have hd : name ∈ discovered dir := (mem_discovered dir name).mpr ⟨hmem, suf, hsuf1, hsuf2⟩
    rw [List.isEmpty_iff.mp hemp] at hd
    exact List.not_mem_nil name hd
  · rw [if_neg hemp] at hok
    cases hrl : runLoop env (pySort (discovered dir)) 0 0 fs0 with
    | error e =>
      rw [hrl] at hok
      simp at hok
    | ok out =>
      obtain ⟨s, f, fs, tr⟩ := out
      rw [hrl] at hok
      have hres : res = ⟨false, false, s, f, fs, tr⟩ := by
        cases hok
        rfl
      subst hres
      have htr := (runLoop_ok env _ 0 0 fs0 _ hrl).2
      dsimp only at htr ⊢
      have hnods : (pySort (discovered dir)).Nodup :=
        ((pySort_perm (discovered dir)).nodup_iff).mpr (nodup_discovered dir hnd)
      refine ⟨?_, ?_, ?_⟩
      · rw [htr]
        exact hnods.filter _
      · rw [htr]
        exact (pySort_sorted (discovered dir)).filter _
      · intro name
        rw [htr]
        rw [List.mem_filter]
        constructor
        · intro hmf
          obtain ⟨h1, h2⟩ := hmf
          have hmem : name ∈ discovered dir := (pySort_perm _).mem_iff.mp h1
          have hchar := (mem_discovered dir name).mp hmem
          refine ⟨hchar.1, hchar.2, ?_⟩
          simpa using h2
        · intro hchar
          obtain ⟨hmem, hsuf, hhid⟩ := hchar
          refine ⟨(pySort_perm _).mem_iff.mpr ((mem_discovered dir name).mpr ⟨hmem, hsuf⟩), ?_⟩
          simp [hhid]

/-- Witness for C6 over a three-entry directory. -/
theorem C6_witness :
    res6.trace.Nodup ∧ res6.trace.Pairwise SLe ∧
      ∀ name, name ∈ res6.trace ↔
        (name ∈ dir6 ∧ (∃ suf ∈ supported_formats, suf.data <:+ name.data) ∧
          hiddenName name = false) :=
  C6_spec envC6w dir6 [] res6 rfl (by decide) (by decide)

/-- Claim C7: an item whose inference response is absent or empty, or
whose response sanitizes to nothing, is recorded as a failure (the item
returns False into the failed counter) and no output file is written for
it (the file map is unchanged). -/
theorem C7_spec (env : Env) (fs : Fs) (p : String) (r : Option String)
    (han : analyze_algorithm_image env p = .ok r)
    (hbad : pyFalsy r = true ∨ pyFalsy (clean_latex_output r) = true) :
    process_single_image env fs p = .ok (false, fs) := by
  unfold process_single_image
  rw [han]
  dsimp only
  by_cases h1 : pyFalsy r = true
  · rw [if_pos h1]
  · rw [if_neg h1]
    rcases hbad with hb | hb
    · exact absurd hb h1
    · cases hcl : clean_latex_output r with
      | none => rfl
      | some cleaned =>
        dsimp only
        rw [hcl] at hb
        rw [if_pos (show (cleaned == "") = true from hb)]

/-- Witness for C7: a failed API call yields a per-item failure with no
file written. -/
theorem C7_witness : process_single_image envC7 [] "a.png" = .ok (false, []) :=
  C7_spec envC7 [] "a.png" none rfl (Or.inl rfl)

/-- Claim C8: with the credential variable unset, main reports the
missing-credential condition and stops before the converter is even
constructed — the result is independent of the read/inference oracles, so
no file read and no network call can occur. -/
theorem C8_spec (env : Env) (fs0 : Fs) (hkey : env.apiKey = none) :
    main env fs0 = MainResult.missingKey := by
  unfold main
  rw [hkey]

/-- Witness for C8. -/
theorem C8_witness : main envC8 [] = MainResult.missingKey := C8_spec envC8 [] rfl

/-- Claim C9: a missing images directory is reported by its own early
return with zero items processed and no exception, and is distinct from
the directory-exists-but-empty report, which has its own flag. -/
theorem C9_spec (env : Env) (fs0 : Fs) :
    (env.imagesDir = none →
      process_all_images env fs0 = .ok ⟨true, false, 0, 0, fs0, []⟩) ∧
    (∀ listing, env.imagesDir = some listing → discovered listing = [] →
      process_all_images env fs0 = .ok ⟨false, true, 0, 0, fs0, []⟩) := by
  constructor
  · intro h
    unfold process_all_images
    rw [h]
  · intro listing h hde
    unfold process_all_images
    rw [h]
    dsimp only
    rw [if_pos (by rw [hde]; rfl)]

/-- Witness for C9: both early returns at concrete environments. -/
theorem C9_witness :
    process_all_images envC9a [] = .ok ⟨true, false, 0, 0, [], []⟩ ∧
    process_all_images envC9b [] = .ok ⟨false, true, 0, 0, [], []⟩ :=
  ⟨(C9_spec envC9a []).1 rfl, (C9_spec envC9b []).2 ["notes.txt"] rfl (by decide)⟩

/-- Claim C10: whenever `process_all_images` returns normally, every
non-hidden discovered image bumped exactly one of the two counters, so
successful plus failed equals the number of non-hidden discovered images
(hidden files bump neither). -/
theorem C10_spec (env : Env) (dir : List String) (fs0 : Fs) (res : RunResult)
    (hdir : env.imagesDir = some dir)
    (hok : process_all_images env fs0 = .ok res) :
    res.successful + res.failed =
      ((discovered dir).filter (fun n => !hiddenName n)).length := by
  unfold process_all_images at hok
  rw [hdir] at hok
  dsimp only at hok
  by_cases hemp : (discovered dir).isEmpty = true
  · rw [if_pos hemp] at hok
    have hres : res = ⟨false, true, 0, 0, fs0, []⟩ := by
      cases hok
      rfl
    subst hres
    rw [List.isEmpty_iff.mp hemp]
    rfl
  · rw [if_neg hemp] at hok
    cases hrl : runLoop env (pySort (discovered dir)) 0 0 fs0 with
    | error e =>
      rw [hrl] at hok
      simp at hok
    | ok out =>
      obtain ⟨s, f, fs, tr⟩ := out
      rw [hrl] at hok
      have hres : res = ⟨false, false, s, f, fs, tr⟩ := by
        cases hok
        rfl
      subst hres
      have hcount := (runLoop_ok env _ 0 0 fs0 _ hrl).1
      dsimp only at hcount ⊢
      rw [hcount]
      have hperm := (pySort_perm (discovered dir)).filter (fun n => !hiddenName n)
      rw [hperm.length_eq]
      omega

/-- Witness for C10 over the three-entry directory. -/
theorem C10_witness :
    res6.successful + res6.failed =
      ((discovered dir6).filter (fun n => !hiddenName n)).length :=
  C10_spec envC6w dir6 [] res6 rfl (by decide)
end ToAlgo
